import Mathlib

/-!
Verification of the qwerty-WS persistence pipeline.

This file shallowly embeds the persistence core of the qwerty-WS
collaboration server: the SHA-256 / base64 helpers it relies on, the
Tiptap block decoder (`yjsToBlocks` / `generateBlockId`), the snapshot
worker's diff-and-upsert transaction (`processSnapshotTx`), the
Redis-backed cache-aside extension (`fetchDocument` / `storeDocument`),
and the connection-lifecycle handlers (`onDisconnect` / `onDestroy`).
External collaborators (the Yjs merge engine, Redis, Postgres, BullMQ)
are modelled by explicit inputs: a document is its decoded XML fragment,
cache and persistence calls take an explicit success/failure outcome,
and the database is an in-memory record of table rows.
-/

set_option maxRecDepth 10000

/-! ## Bytes, SHA-256 and hex (model of node:crypto sha256, as used by
`calculateStateHash` and `generateBlockId`) -/

/-- 2^32, the word modulus of SHA-256 arithmetic. -/
def w32 : Nat := 4294967296

/-- Right rotation of a 32-bit word. -/
def rotr32 (x n : Nat) : Nat :=
  ((x >>> n) ||| (x <<< (32 - n))) % w32

/-- SHA-256 big sigma 0. -/
def bsig0 (x : Nat) : Nat := (rotr32 x 2) ^^^ (rotr32 x 13) ^^^ (rotr32 x 22)

/-- SHA-256 big sigma 1. -/
def bsig1 (x : Nat) : Nat := (rotr32 x 6) ^^^ (rotr32 x 11) ^^^ (rotr32 x 25)

/-- SHA-256 small sigma 0. -/
def ssig0 (x : Nat) : Nat := (rotr32 x 7) ^^^ (rotr32 x 18) ^^^ (x >>> 3)

/-- SHA-256 small sigma 1. -/
def ssig1 (x : Nat) : Nat := (rotr32 x 17) ^^^ (rotr32 x 19) ^^^ (x >>> 10)

/-- The SHA-256 round constants. -/
def shaK : List Nat :=
  [1116352408, 1899447441, 3049323471, 3921009573, 961987163,
   1508970993, 2453635748, 2870763221, 3624381080, 310598401,
   607225278, 1426881987, 1925078388, 2162078206, 2614888103,
   3248222580, 3835390401, 4022224774, 264347078, 604807628,
   770255983, 1249150122, 1555081692, 1996064986, 2554220882,
   2821834349, 2952996808, 3210313671, 3336571891, 3584528711,
   113926993, 338241895, 666307205, 773529912, 1294757372,
   1396182291, 1695183700, 1986661051, 2177026350, 2456956037,
   2730485921, 2820302411, 3259730800, 3345764771, 3516065817,
   3600352804, 4094571909, 275423344, 430227734, 506948616,
   659060556, 883997877, 958139571, 1322822218, 1537002063,
   1747873779, 1955562222, 2024104815, 2227730452, 2361852424,
   2428436474, 2756734187, 3204031479, 3329325298]

/-- The SHA-256 initial hash state. -/
def shaH0 : List Nat :=
  [1779033703, 3144134277, 1013904242, 2773480762, 1359893119,
   2600822924, 528734635, 1541459225]

/-- Pad a byte message per SHA-256: append 0x80, zeros to 56 mod 64, then the
64-bit big-endian bit length. -/
def shaPad (msg : List Nat) : List Nat :=
  let len := msg.length
  let bitLen := len * 8
  let zeros := (64 - ((len + 9) % 64)) % 64
  msg ++ [0x80] ++ List.replicate zeros 0 ++
    [(bitLen >>> 56) % 256, (bitLen >>> 48) % 256, (bitLen >>> 40) % 256, (bitLen >>> 32) % 256,
     (bitLen >>> 24) % 256, (bitLen >>> 16) % 256, (bitLen >>> 8) % 256, bitLen % 256]

/-- Group bytes into 32-bit big-endian words. -/
def bytesToWords : List Nat → List Nat
  | a :: b :: c :: d :: rest => (a * 16777216 + b * 65536 + c * 256 + d) :: bytesToWords rest
  | _ => []

/-- Extend a 16-word block by `n` more message-schedule words. -/
def extendWords (w : List Nat) : Nat → List Nat
  | 0 => w
  | n + 1 =>
    let t := w.length
    let nw := (ssig1 (w.getD (t - 2) 0) + w.getD (t - 7) 0 + ssig0 (w.getD (t - 15) 0) +
      w.getD (t - 16) 0) % w32
    extendWords (w ++ [nw]) n

/-- One round of the SHA-256 compression function. State is `[a,b,c,d,e,f,g,h]`. -/
def shaRound (st : List Nat) (kw : Nat × Nat) : List Nat :=
  let a := st.getD 0 0
  let b := st.getD 1 0
  let c := st.getD 2 0
  let d := st.getD 3 0
  let e := st.getD 4 0
  let f := st.getD 5 0
  let g := st.getD 6 0
  let h := st.getD 7 0
  let ch := (e &&& f) ^^^ ((w32 - 1 - e) &&& g)
  let maj := (a &&& b) ^^^ (a &&& c) ^^^ (b &&& c)
  let t1 := (h + bsig1 e + ch + kw.1 + kw.2) % w32
  let t2 := (bsig0 a + maj) % w32
  [(t1 + t2) % w32, a, b, c, (d + t1) % w32, e, f, g]

/-- Compress one 64-word message schedule into the running hash state. -/
def shaCompress (h : List Nat) (ws : List Nat) : List Nat :=
  let fin := (shaK.zip ws).foldl (fun st kw => shaRound st ⟨kw.1, kw.2⟩) h
  (h.zip fin).map (fun p => (p.1 + p.2) % w32)

/-- Split a padded message into 16-word blocks; the fuel argument bounds the
number of blocks (the message length is always enough fuel). -/
def shaBlocksGo : Nat → List Nat → List (List Nat)
  | _, [] => []
  | 0, _ => []
  | fuel + 1, b :: bs => bytesToWords ((b :: bs).take 64) :: shaBlocksGo fuel ((b :: bs).drop 64)

/-- Split a padded message into 16-word blocks. -/
def shaBlocks (bs : List Nat) : List (List Nat) := shaBlocksGo bs.length bs

/-- SHA-256 of a byte message, as eight 32-bit words. -/
def sha256Words (msg : List Nat) : List Nat :=
  (shaBlocks (shaPad msg)).foldl (fun h blk => shaCompress h (extendWords blk 48)) shaH0

/-- Serialize 32-bit words to big-endian bytes. -/
def wordsToBytes (ws : List Nat) : List Nat :=
  ws.flatMap (fun w => [(w >>> 24) % 256, (w >>> 16) % 256, (w >>> 8) % 256, w % 256])

/-- Lower-case hex digit for a value below 16. -/
def hexDigit (n : Nat) : Char :=
  "0123456789abcdef".toList.getD n '0'

/-- Lower-case hex characters of a byte list. -/
def bytesToHexChars (bs : List Nat) : List Char :=
  bs.flatMap (fun b => [hexDigit (b / 16), hexDigit (b % 16)])

/-- The hex digest `crypto.createHash("sha256").update(msg).digest("hex")`. -/
def sha256Hex (msg : List Nat) : String :=
  String.mk (bytesToHexChars (wordsToBytes (sha256Words msg)))

/-- The hex digest truncated to its first `n` characters, the model of
`digest("hex").substring(0, n)`. -/
def sha256HexTrunc (msg : List Nat) (n : Nat) : String :=
  String.mk ((bytesToHexChars (wordsToBytes (sha256Words msg))).take n)

/-- UTF-8 bytes of a string; the inputs this development feeds it (base64 text,
block id source strings) are ASCII, where UTF-8 is the code point itself.
Models `Buffer.from(string)` and `update(string)` on such strings. -/
def strBytes (s : String) : List Nat := s.toList.map Char.toNat

/-! ## Base64 (model of Buffer base64 encode/decode) -/

/-- The base64 alphabet. -/
def b64Alphabet : List Char :=
  "ABCDEFGHIJKLMNOPQRSTUVWXYZabcdefghijklmnopqrstuvwxyz0123456789+/".toList

/-- The base64 character of a 6-bit value. -/
def b64Char (n : Nat) : Char := b64Alphabet.getD n 'A'

/-- Encode bytes in base64, the model of `Buffer.from(state).toString("base64")`. -/
def base64EncodeChars : List Nat → List Char
  | [] => []
  | [a] => [b64Char (a / 4), b64Char (a % 4 * 16), '=', '=']
  | [a, b] => [b64Char (a / 4), b64Char (a % 4 * 16 + b / 16), b64Char (b % 16 * 4), '=']
  | a :: b :: c :: rest =>
    b64Char (a / 4) :: b64Char (a % 4 * 16 + b / 16) :: b64Char (b % 16 * 4 + c / 64) ::
      b64Char (c % 64) :: base64EncodeChars rest

/-- Encode bytes in base64 as a string. -/
def base64Encode (bs : List Nat) : String := String.mk (base64EncodeChars bs)

/-- The 6-bit value of a base64 character. -/
def b64Val (c : Char) : Nat := b64Alphabet.findIdx (fun x => x == c)

/-- Decode well-formed base64 characters to bytes, the model of
`Buffer.from(base64, "base64")`. -/
def base64DecodeChars : List Char → List Nat
  | a :: b :: c :: d :: rest =>
    if c = '=' then [b64Val a * 4 + b64Val b / 16]
    else if d = '=' then [b64Val a * 4 + b64Val b / 16, b64Val b % 16 * 16 + b64Val c / 4]
    else (b64Val a * 4 + b64Val b / 16) :: (b64Val b % 16 * 16 + b64Val c / 4) ::
      (b64Val c % 4 * 64 + b64Val d) :: base64DecodeChars rest
  | _ => []

/-- Decode a base64 string to bytes. -/
def base64Decode (s : String) : List Nat := base64DecodeChars s.toList

/-! ## Yjs serializer model (src/utils/yjs-serializer.ts)

A Yjs document handle is modelled by the contents of its Tiptap
`XmlFragment "default"`: a list of XML items, each an element (node name,
attributes, children) or a text node. The binary encode/decode of the
external sync engine is not reimplemented; where the code round-trips a
document through `serializeYDoc` / `deserializeYDoc`, the theorems work
with the fragment itself and with the byte list the engine produced. -/

/-- A Yjs XML tree item: `Y.XmlElement` with node name, attributes and
children, or `Y.XmlText`. -/
inductive YXml where
  | elem : String → List (String × String) → List YXml → YXml
  | text : String → YXml

mutual

/-- The `extractText` closure of `yjsToBlocks`: accumulate the text of all
descendant text nodes, depth first, left to right. -/
def extractText : YXml → String
  | YXml.text s => s
  | YXml.elem _ _ children => extractTextList children

/-- Text accumulation over a child list, in order. -/
def extractTextList : List YXml → String
  | [] => ""
  | x :: xs => extractText x ++ extractTextList xs

end

/-- Structured content column of a block row:
`{ text: textContent, attrs: attrs }`. -/
structure BlockContent where
  text : String
  attrs : List (String × String)
deriving DecidableEq, Repr

/-- A decoded block candidate (the `BlockData` interface of the serializer). -/
structure BlockData where
  id : String
  type : String
  content : BlockContent
  parentId : Option String
  order : Nat
deriving DecidableEq, Repr

/-- Deterministic block id: the SHA-256 hex digest of the string
`type ++ "-" ++ order ++ "-" ++ textContent`, truncated to its first
16 characters (`generateBlockId` in the serializer). -/
def generateBlockId (type : String) (order : Nat) (textContent : String) : String :=
  sha256HexTrunc (strBytes (type ++ "-" ++ Nat.repr order ++ "-" ++ textContent)) 16

/-- The fragment traversal of `yjsToBlocks`: element items become blocks with
a strictly increasing `order` starting at the given counter; text items at the
top level are skipped and do not advance the counter. -/
def yjsToBlocksGo : List YXml → Nat → List BlockData
  | [], _ => []
  | YXml.text _ :: rest, order => yjsToBlocksGo rest order
  | YXml.elem name attrs children :: rest, order =>
    { id := generateBlockId name order (extractText (YXml.elem name attrs children)),
      type := name,
      content := { text := extractText (YXml.elem name attrs children), attrs := attrs },
      parentId := none,
      order := order } :: yjsToBlocksGo rest (order + 1)

/-- Convert a Yjs document (its Tiptap `default` fragment) to blocks. -/
def yjsToBlocks (fragment : List YXml) : List BlockData :=
  yjsToBlocksGo fragment 0

/-- The catch branch of `yjsToBlocks`: an error thrown while traversing the
fragment is caught and the blocks accumulated so far are returned. An error
hitting at item `k` leaves exactly the blocks of the first `k` items. -/
def yjsToBlocksUpTo (fragment : List YXml) (k : Nat) : List BlockData :=
  yjsToBlocksGo (fragment.take k) 0

/-! ## Relational projection and snapshot worker (src/workers/snapshot-worker.ts)

The Postgres tables touched by the worker transaction are modelled as
in-memory row lists. `id` is the primary key of the block table; the
worker's `upsert` therefore matches rows by `id` alone, exactly as
`tx.block.upsert({ where: ... })` does, and `deleteMany` removes rows whose
`id` is in the computed deletion list. -/

/-- A row of the `block` table. -/
structure BlockRow where
  id : String
  pageId : String
  type : String
  content : BlockContent
  parentId : Option String
  order : Nat
  lastSyncedAt : Nat
deriving DecidableEq, Repr

/-- A row of the `blockVersion` table (`recordedAt` is a database default and
carries no information the claims need). -/
structure BlockVersionRow where
  blockId : String
  content : BlockContent
  changedBy : String
deriving DecidableEq, Repr

/-- A row of the `yjsSnapshot` table. `createdAt` is the database insertion
timestamp. -/
structure SnapshotRow where
  pageId : String
  snapshot : List Nat
  version : Nat
  createdBy : String
  createdAt : Nat
deriving DecidableEq, Repr

/-- The relational store: block rows, block-version rows and snapshot rows. -/
structure Db where
  blocks : List BlockRow
  blockVersions : List BlockVersionRow
  yjsSnapshots : List SnapshotRow
deriving DecidableEq, Repr

/-- A BullMQ snapshot job as actually enqueued by the disconnect handler:
`yjsState` is the base64 text produced by `yjsStateToBase64` (the interface
declares `Uint8Array`, but the producer passes the base64 string, which is
what the broker delivers). -/
structure SnapshotJobData where
  pageId : String
  yjsState : String
  triggeredBy : String
  timestamp : Nat
deriving DecidableEq, Repr

/-- The `update` arm of the worker's block upsert: overwrite type, content,
parentId, order and lastSyncedAt; `id` and `pageId` are untouched. -/
def updateRow (r : BlockRow) (b : BlockData) (now : Nat) : BlockRow :=
  { r with
    type := b.type
    content := b.content
    parentId := b.parentId
    order := b.order
    lastSyncedAt := now }

/-- The `create` arm of the worker's block upsert. -/
def newRow (pageId : String) (b : BlockData) (now : Nat) : BlockRow :=
  { id := b.id
    pageId := pageId
    type := b.type
    content := b.content
    parentId := b.parentId
    order := b.order
    lastSyncedAt := now }

/-- `tx.block.upsert({ where: id })`: if a row with this id exists anywhere in
the table it is updated in place, otherwise a fresh row is created for the
worker's page. -/
def upsertBlock (pageId : String) (now : Nat) (rows : List BlockRow) (b : BlockData) :
    List BlockRow :=
  if rows.any (fun r => r.id == b.id) then
    rows.map (fun r => if r.id == b.id then updateRow r b now else r)
  else
    rows ++ [newRow pageId b now]

/-- One iteration of the worker's upsert loop: upsert the block, and when it
was already a block of this page (`isNew` is false) append one
`blockVersion` row attributed to the job's `triggeredBy`. -/
def upsertStep (pageId : String) (now : Nat) (existingIds : List String) (triggeredBy : String)
    (st : List BlockRow × List BlockVersionRow) (b : BlockData) :
    List BlockRow × List BlockVersionRow :=
  let rows := upsertBlock pageId now st.1 b
  let vers :=
    if existingIds.contains b.id then st.2 ++ [⟨b.id, b.content, triggeredBy⟩] else st.2
  (rows, vers)

/-- The worker's transaction on a snapshot job whose decoded block list is
`blocks`: load the page's block ids, delete the ids absent from the decoded
list, upsert every decoded block (appending a version row for updates), and
append one `yjsSnapshot` row whose `snapshot` column is
`Buffer.from(job.yjsState)` — the UTF-8 bytes of the delivered string. -/
def processSnapshotTx (db : Db) (job : SnapshotJobData) (blocks : List BlockData) (now : Nat) :
    Db :=
  let existingIds := (db.blocks.filter (fun b => b.pageId == job.pageId)).map (fun b => b.id)
  let newIds := blocks.map (fun b => b.id)
  let blocksToDelete := existingIds.filter (fun i => !(newIds.contains i))
  let afterDelete := db.blocks.filter (fun b => !(blocksToDelete.contains b.id))
  let st := blocks.foldl (upsertStep job.pageId now existingIds job.triggeredBy)
    (afterDelete, db.blockVersions)
  { blocks := st.1
    blockVersions := st.2
    yjsSnapshots := db.yjsSnapshots ++
      [⟨job.pageId, strBytes job.yjsState, job.timestamp / 1000, job.triggeredBy, now⟩] }

/-! ## Cache-aside persistence extension (src/extensions/redis-persistence.ts)

Redis call outcomes are explicit `Except` inputs: `Except.ok` carries the
reply, `Except.error` a thrown connection/command error. The extension has
no try/catch of its own, so the embedding returns whatever the calls
produce. A performed cache write is reported as a `CacheWrite`. -/

/-- A write into the cache: key, raw bytes, TTL seconds. -/
structure CacheWrite where
  key : String
  value : List Nat
  ttl : Nat
deriving DecidableEq, Repr

/-- Character-level engine of `replaceFirst`: replace the first occurrence of
`pat`, scanning left to right. -/
def replaceFirstGo (pat repl : List Char) : List Char → List Char
  | [] => []
  | c :: rest =>
    if pat.isPrefixOf (c :: rest) then repl ++ (c :: rest).drop pat.length
    else c :: replaceFirstGo pat repl rest

/-- Replace the first occurrence of `pat` in `s` by `repl`, the model of the
JavaScript `String.replace` with a string pattern. -/
def replaceFirst (s pat repl : String) : String :=
  String.mk (replaceFirstGo pat.toList repl.toList s.toList)

/-- `documentName.replace("page:", "")`. -/
def pageIdOf (documentName : String) : String :=
  replaceFirst documentName "page:" ""

/-- The cache key of a document: the fixed prefix and the document name. -/
def cacheKey (documentName : String) : String := "ydoc_v2:" ++ documentName

/-- `prisma.yjsSnapshot.findFirst({ orderBy: createdAt desc })` over the rows
of one page: the row with the greatest `createdAt`, later rows winning ties. -/
def findLatestSnapshot : List SnapshotRow → Option SnapshotRow
  | [] => none
  | r :: rest =>
    match findLatestSnapshot rest with
    | none => some r
    | some b => if b.createdAt ≥ r.createdAt then some b else some r

/-- The `fetch` hook of the Database extension: try the cache; on a hit return
its bytes; on a miss read the page's latest snapshot from Postgres, restore it
to the cache with a 3600-second TTL and return it; with no snapshot return
`none`. Errors of either Redis call are not caught and escape the hook. -/
def fetchDocument (redisRead : Except Unit (Option (List Nat))) (db : Db)
    (redisWrite : Except Unit Unit) (documentName : String) :
    Except Unit (Option (List Nat) × Option CacheWrite) :=
  match redisRead with
  | .error e => .error e
  | .ok (some data) => .ok (some data, none)
  | .ok none =>
    match findLatestSnapshot (db.yjsSnapshots.filter (fun s => s.pageId == pageIdOf documentName)) with
    | some snap =>
      match redisWrite with
      | .error e => .error e
      | .ok _ => .ok (some snap.snapshot, some ⟨cacheKey documentName, snap.snapshot, 3600⟩)
    | none => .ok (none, none)

/-- The `store` hook: one Redis `set` with a 3600-second TTL; an error of the
call is not caught and escapes the hook. -/
def storeDocument (redisWrite : Except Unit Unit) (documentName : String) (state : List Nat) :
    Except Unit CacheWrite :=
  match redisWrite with
  | .error e => .error e
  | .ok _ => .ok ⟨cacheKey documentName, state, 3600⟩

/-! ## Server lifecycle handlers (src/index.ts)

The handler state holds the two in-process maps (active connections and
last snapshot hashes, both insertion-ordered as JavaScript Maps are), the
jobs enqueued on the snapshot queue, and the relational store written by
the direct-save path. Handlers are modelled after the document name has
been resolved to a page id and a user id. -/

/-- Insertion-ordered map update, the model of `Map.set`. -/
def mapSet {α : Type} (m : List (String × α)) (k : String) (v : α) : List (String × α) :=
  if m.any (fun p => p.1 == k) then m.map (fun p => if p.1 == k then (k, v) else p)
  else m ++ [(k, v)]

/-- Map entry removal, the model of `Map.delete`. -/
def mapRemove {α : Type} (m : List (String × α)) (k : String) : List (String × α) :=
  m.filter (fun p => !(p.1 == k))

/-- `calculateStateHash`: the SHA-256 hex digest of the serialized state. -/
def calculateStateHash (state : List Nat) : String := sha256Hex state

/-- `yjsStateToBase64`: base64 text of the binary state. -/
def yjsStateToBase64 (state : List Nat) : String := base64Encode state

/-- `base64ToYjsState`: bytes of a base64 string. -/
def base64ToYjsState (base64 : String) : List Nat := base64Decode base64

/-- `saveSnapshotDirect`: decode the base64 text back to bytes and insert one
`yjsSnapshot` row with `version` the floor of the millisecond timestamp over
1000. -/
def saveSnapshotDirect (pageId : String) (yjsState : String) (triggeredBy : String)
    (timestamp : Nat) (now : Nat) : SnapshotRow :=
  { pageId := pageId
    snapshot := base64ToYjsState yjsState
    version := timestamp / 1000
    createdBy := triggeredBy
    createdAt := now }

/-- The in-process server state of index.ts. -/
structure ServerState where
  activeConnections : List (String × List String)
  lastSnapshotHash : List (String × String)
  queuedJobs : List SnapshotJobData
  db : Db
deriving DecidableEq, Repr

/-- The `onDisconnect` handler. `useQueue` is the `USE_SNAPSHOT_QUEUE` flag,
`persistRes` the outcome of the awaited `queueSnapshot` / direct save
(`Except.error` models a throw, which the handler catches), `doc` the
serialized state of the loaded document if `server.documents.get` finds one,
and `now` the `Date.now()` timestamp. The handler removes the user from the
page's connection set; when none remain it drops the set, and — if the
document is loaded and its hash differs from the recorded fingerprint —
persists one snapshot (queued or direct) and only then records the new
fingerprint. A failed persistence is caught and leaves the fingerprint map
and stores untouched. -/
def onDisconnect (useQueue : Bool) (persistRes : Except Unit Unit) (doc : Option (List Nat))
    (now : Nat) (st : ServerState) (pageId userId : String) : ServerState :=
  match List.lookup pageId st.activeConnections with
  | none => st
  | some conns =>
    let conns2 := conns.filter (fun u => !(u == userId))
    if conns2.isEmpty then
      let st1 := { st with activeConnections := mapRemove st.activeConnections pageId }
      match doc with
      | none => st1
      | some state =>
        let stateHash := calculateStateHash state
        let lastHash := List.lookup pageId st.lastSnapshotHash
        if some stateHash == lastHash then st1
        else
          match persistRes with
          | .error _ => st1
          | .ok _ =>
            let st2 :=
              if useQueue then
                { st1 with queuedJobs :=
                    st1.queuedJobs ++ [⟨pageId, yjsStateToBase64 state, userId, now⟩] }
              else
                { st1 with db :=
                    { st1.db with yjsSnapshots := st1.db.yjsSnapshots ++
                        [saveSnapshotDirect pageId (yjsStateToBase64 state) userId now now] } }
            { st2 with lastSnapshotHash := mapSet st2.lastSnapshotHash pageId stateHash }
    else
      { st with activeConnections := mapSet st.activeConnections pageId conns2 }

/-- The `onDestroy` handler: drop the page's connection set and its
last-snapshot-hash fingerprint entry. -/
def onDestroy (st : ServerState) (pageId : String) : ServerState :=
  { st with
    activeConnections := mapRemove st.activeConnections pageId
    lastSnapshotHash := mapRemove st.lastSnapshotHash pageId }

set_option maxHeartbeats 2000000

/-! ## Helper lemmas -/

/-- Updating a row preserves its id. -/
theorem updateRow_id (r : BlockRow) (b : BlockData) (now : Nat) :
    (updateRow r b now).id = r.id := rfl

/-- Updating a row preserves its page. -/
theorem updateRow_pageId (r : BlockRow) (b : BlockData) (now : Nat) :
    (updateRow r b now).pageId = r.pageId := rfl

/-- A filter keeping every element is the identity. -/
theorem filter_all (l : List BlockRow) (p : BlockRow → Bool) (h : ∀ r ∈ l, p r = true) :
    l.filter p = l :=
  List.filter_eq_self.mpr h

/-- A filter keeping no element is empty. -/
theorem filter_none (l : List BlockRow) (p : BlockRow → Bool) (h : ∀ r ∈ l, p r = false) :
    l.filter p = [] :=
  List.filter_eq_nil_iff.mpr (fun r hr => by simp [h r hr])

/-- Mapping an id-guarded update over rows none of which carry the id is the
identity. -/
theorem map_update_skip (l : List BlockRow) (i : String) (f : BlockRow → BlockRow)
    (h : ∀ r ∈ l, r.id ≠ i) :
    (l.map fun r => if r.id == i then f r else r) = l := by
  induction l with
  | nil => rfl
  | cons a t ih =>
    have ha : (a.id == i) = false := by
      simpa using h a (List.mem_cons_self a t)
    simp only [List.map_cons, ha, Bool.false_eq_true, if_false]
    rw [ih (fun r hr => h r (List.mem_cons_of_mem a hr))]

/-- Rows none of which carry an id make `any` false. -/
theorem any_id_false (l : List BlockRow) (i : String) (h : ∀ r ∈ l, r.id ≠ i) :
    (l.any fun r => r.id == i) = false := by
  simp only [List.any_eq_false]
  intro r hr
  simpa using h r hr

/-- Looking up a key after the in-place arm of `mapSet` finds the new value. -/
theorem lookup_map_set_hit {α : Type} (k : String) (v : α) :
    ∀ m : List (String × α), (m.any fun p => p.1 == k) = true →
      List.lookup k (m.map fun p => if p.1 == k then (k, v) else p) = some v := by
  intro m
  induction m with
  | nil => intro h; simp at h
  | cons p t ih =>
    intro h
    by_cases hp : p.1 = k
    · have hpb : (p.1 == k) = true := by simpa using hp
      simp only [List.map_cons]
      rw [if_pos hpb]
      simp [List.lookup]
    · have hpb : (p.1 == k) = false := by simpa using hp
      have hkp : (k == p.1) = false := by simpa using fun e => hp e.symm
      have ht : (t.any fun q => q.1 == k) = true := by
        simpa [List.any_cons, hpb] using h
      simp only [List.map_cons]
      rw [if_neg (by simp [hpb])]
      simp only [List.lookup, hkp]
      exact ih ht

/-- Looking up a key in a map that misses it, extended by that key, finds the
appended value. -/
theorem lookup_append_hit {α : Type} (k : String) (v : α) :
    ∀ m : List (String × α), (∀ q ∈ m, (q.1 == k) = false) →
      List.lookup k (m ++ [(k, v)]) = some v := by
  intro m
  induction m with
  | nil => simp [List.lookup]
  | cons p t ih =>
    intro h
    have hpb : (p.1 == k) = false := h p (List.mem_cons_self p t)
    have hkp : (k == p.1) = false := by
      simp only [beq_eq_false_iff_ne] at hpb ⊢
      exact fun e => hpb e.symm
    simp only [List.cons_append, List.lookup, hkp]
    exact ih (fun q hq => h q (List.mem_cons_of_mem p hq))

/-- `Map.set` then `Map.get` on the same key yields the stored value. -/
theorem lookup_mapSet_self {α : Type} (m : List (String × α)) (k : String) (v : α) :
    List.lookup k (mapSet m k v) = some v := by
  by_cases hany : (m.any fun p => p.1 == k) = true
  · simp only [mapSet, hany, if_true]
    exact lookup_map_set_hit k v m hany
  · simp only [mapSet, hany, if_false]
    refine lookup_append_hit k v m (fun q hq => ?_)
    cases hqk : (q.1 == k) with
    | false => rfl
    | true => exact absurd (List.any_eq_true.mpr ⟨q, hq, hqk⟩) hany

/-- `Map.delete` then `Map.get` on the same key yields nothing. -/
theorem lookup_mapRemove_self {α : Type} (m : List (String × α)) (k : String) :
    List.lookup k (mapRemove m k) = none := by
  induction m with
  | nil => rfl
  | cons p t ih =>
    by_cases hp : p.1 = k
    · have hpb : (p.1 == k) = true := by simpa using hp
      simpa [mapRemove, List.filter_cons, hpb] using ih
    · have hpb : (p.1 == k) = false := by simpa using hp
      have hkp : (k == p.1) = false := by simpa using fun e => hp e.symm
      simp only [mapRemove, List.filter_cons, hpb, Bool.not_false, if_true, List.lookup, hkp]
      simpa [mapRemove] using ih

/-- `List.contains` on strings is decidable membership. -/
theorem strContains_eq (l : List String) (a : String) : l.contains a = decide (a ∈ l) :=
  List.elem_eq_mem a l

/-! ## Claim theorems -/

/-- C7: decoding a document whose `default` fragment encodes exactly two
paragraph elements with texts "Hello" and "World" yields exactly two blocks,
with order 0 and 1, type "paragraph", content text "Hello" and "World", and
ids equal to the SHA-256 digest of (type, order, text) — the digest of
"paragraph-0-Hello" and of "paragraph-1-World" — truncated to the fixed
16-character length. -/
theorem c7_two_paragraph_decode :
    yjsToBlocks [YXml.elem "paragraph" [] [YXml.text "Hello"],
        YXml.elem "paragraph" [] [YXml.text "World"]] =
      [{ id := generateBlockId "paragraph" 0 "Hello", type := "paragraph",
         content := { text := "Hello", attrs := [] }, parentId := none, order := 0 },
       { id := generateBlockId "paragraph" 1 "World", type := "paragraph",
         content := { text := "World", attrs := [] }, parentId := none, order := 1 }] ∧
    generateBlockId "paragraph" 0 "Hello" = sha256HexTrunc (strBytes "paragraph-0-Hello") 16 ∧
    generateBlockId "paragraph" 1 "World" = sha256HexTrunc (strBytes "paragraph-1-World") 16 ∧
    generateBlockId "paragraph" 0 "Hello" = "1aedfa5cd725a78e" ∧
    generateBlockId "paragraph" 1 "World" = "7b289198aa261810" ∧
    sha256Hex (strBytes "paragraph-0-Hello") =
      "1aedfa5cd725a78eecd8272e18fcce6a7de4494a21fb93211d7976d8a1c08e61" ∧
    sha256Hex (strBytes "paragraph-1-World") =
      "7b289198aa261810c54f3a7c9bc3b6db5875d99b8b64bc1efd069341e4c28603" := by
  refine ⟨by decide, rfl, rfl, by decide, by decide, by decide, by decide⟩

/-- C2 (code bug): the diff worker's appended SnapshotRecord does not hold the
binary document state. The disconnect handler enqueues the base64 text of the
state, and the worker stores `Buffer.from(yjsState)` without decoding — the
UTF-8 bytes of the base64 text. For the one-byte state `[1]` the enqueued text
is "AQ==" and the stored snapshot is `[65, 81, 61, 61]`, not `[1]`; decoding
the text as the claim requires (and as `saveSnapshotDirect` and the plain
snapshot worker do via `base64ToYjsState`) would recover `[1]`. -/
theorem c2_worker_snapshot_not_binary_state :
    yjsStateToBase64 [1] = "AQ==" ∧
    (processSnapshotTx ⟨[], [], []⟩ ⟨"p1", yjsStateToBase64 [1], "u1", 0⟩ [] 0).yjsSnapshots =
      [⟨"p1", [65, 81, 61, 61], 0, "u1", 0⟩] ∧
    strBytes (yjsStateToBase64 [1]) ≠ [1] ∧
    base64ToYjsState (yjsStateToBase64 [1]) = [1] := by
  refine ⟨by decide, by decide, by decide, by decide⟩

/-- C3 counterexample: a cache read error is not treated as a miss. With the
Redis read throwing, the durable log holding a snapshot for the page, and the
repopulation write able to succeed, `fetch` propagates the error instead of
falling back to the snapshot. -/
theorem c3_counterexample :
    fetchDocument (Except.error ()) ⟨[], [], [⟨"p1", [7], 0, "u1", 0⟩]⟩ (Except.ok ())
      "page:p1" = Except.error () := by
  rfl

/-- C4 counterexample: after the only session of page "p1" disconnects (zero
remaining connections, so the connection set is dropped), the fingerprint
entry is NOT removed from the in-process map — the handler leaves it in place
(here the stored hash matches the state, so the snapshot is skipped and the
entry survives unchanged). -/
theorem c4_counterexample :
    (onDisconnect false (Except.ok ()) (some [1, 2, 3]) 0
        ⟨[("p1", ["u1"])], [("p1", calculateStateHash [1, 2, 3])], [], ⟨[], [], []⟩⟩
        "p1" "u1").activeConnections = [] ∧
    List.lookup "p1" (onDisconnect false (Except.ok ()) (some [1, 2, 3]) 0
        ⟨[("p1", ["u1"])], [("p1", calculateStateHash [1, 2, 3])], [], ⟨[], [], []⟩⟩
        "p1" "u1").lastSnapshotHash = some (calculateStateHash [1, 2, 3]) := by
  refine ⟨by decide, by decide⟩

/-- C1 counterexample: the diff transaction can modify another page's node
row. Page "p1" stores ids a, b, c; the decoded list yields ids b, c, d; but a
row with id "d" already belongs to page "p2" (ids are content-derived digests
computed without the page id, so this arises whenever two pages share a
block's type, position and text). The upsert matches on the global primary
key `id` alone, so it updates page "p2"'s row in place and page "p1" never
receives a row with id "d" — contradicting both "inserts D" and "modifies no
Node row belonging to any other page". -/
theorem c1_counterexample :
    (processSnapshotTx
        ⟨[⟨"a", "p1", "paragraph", ⟨"A", []⟩, none, 0, 0⟩,
          ⟨"b", "p1", "paragraph", ⟨"B", []⟩, none, 1, 0⟩,
          ⟨"c", "p1", "paragraph", ⟨"C", []⟩, none, 2, 0⟩,
          ⟨"d", "p2", "paragraph", ⟨"D", []⟩, none, 0, 0⟩], [], []⟩
        ⟨"p1", "s", "u1", 1000⟩
        [⟨"b", "paragraph", ⟨"B", []⟩, none, 0⟩,
         ⟨"c", "paragraph", ⟨"C", []⟩, none, 1⟩,
         ⟨"d", "paragraph", ⟨"Dnew", []⟩, none, 2⟩] 7).blocks.filter
      (fun r => r.pageId == "p2") ≠
      [⟨"d", "p2", "paragraph", ⟨"D", []⟩, none, 0, 0⟩] ∧
    (processSnapshotTx
        ⟨[⟨"a", "p1", "paragraph", ⟨"A", []⟩, none, 0, 0⟩,
          ⟨"b", "p1", "paragraph", ⟨"B", []⟩, none, 1, 0⟩,
          ⟨"c", "p1", "paragraph", ⟨"C", []⟩, none, 2, 0⟩,
          ⟨"d", "p2", "paragraph", ⟨"D", []⟩, none, 0, 0⟩], [], []⟩
        ⟨"p1", "s", "u1", 1000⟩
        [⟨"b", "paragraph", ⟨"B", []⟩, none, 0⟩,
         ⟨"c", "paragraph", ⟨"C", []⟩, none, 1⟩,
         ⟨"d", "paragraph", ⟨"Dnew", []⟩, none, 2⟩] 7).blocks.filter
      (fun r => r.pageId == "p1" && r.id == "d") = [] := by
  refine ⟨by decide, by decide⟩

/-- C8 counterexample: redelivery does not leave exactly one Node row per
(pageId, id) of the decoded list. With a row of id "d" on page "p2" and a job
for page "p1" whose decoded list carries id "d", processing the job twice
leaves zero rows with (pageId, id) = ("p1", "d") — both runs merely update
page "p2"'s row through the id-keyed upsert. -/
theorem c8_counterexample :
    ((processSnapshotTx
        (processSnapshotTx ⟨[⟨"d", "p2", "paragraph", ⟨"D", []⟩, none, 0, 0⟩], [], []⟩
          ⟨"p1", "s", "u1", 1000⟩ [⟨"d", "paragraph", ⟨"X", []⟩, none, 0⟩] 1)
        ⟨"p1", "s", "u1", 1000⟩ [⟨"d", "paragraph", ⟨"X", []⟩, none, 0⟩] 2).blocks.filter
      (fun r => r.pageId == "p1" && r.id == "d")).length = 0 := by
  decide

/-- C1 (amended): diff correctness of the worker transaction, for decoded ids
that do not collide with other pages' rows. With page ids a, b, c stored
(rows `rA, rB, rC`), a decoded list carrying ids b (`dB`), c (`dC`) and a
fresh d (`dD`) that no row of any page carries, the transaction deletes
exactly `rA`, updates `rB` and `rC` in place (appending exactly one
NodeVersion for each, attributed to the job's triggeredBy), inserts one row
for `dD` on this page, appends exactly one SnapshotRecord, and leaves every
other page's rows — `others` — untouched. -/
theorem c1_diff_correctness
    (others : List BlockRow) (rA rB rC : BlockRow)
    (dB dC dD : BlockData) (job : SnapshotJobData) (now : Nat)
    (verss : List BlockVersionRow) (snaps : List SnapshotRow)
    (hpA : rA.pageId = job.pageId) (hpB : rB.pageId = job.pageId)
    (hpC : rC.pageId = job.pageId)
    (hdB : dB.id = rB.id) (hdC : dC.id = rC.id)
    (hAB : rA.id ≠ rB.id) (hAC : rA.id ≠ rC.id) (hAD : rA.id ≠ dD.id)
    (hBC : rB.id ≠ rC.id) (hBD : rB.id ≠ dD.id) (hCD : rC.id ≠ dD.id)
    (hothers : ∀ r ∈ others, r.pageId ≠ job.pageId ∧ r.id ≠ rA.id ∧ r.id ≠ rB.id ∧
      r.id ≠ rC.id ∧ r.id ≠ dD.id) :
    processSnapshotTx ⟨others ++ [rA, rB, rC], verss, snaps⟩ job [dB, dC, dD] now =
      ⟨others ++ [updateRow rB dB now, updateRow rC dC now, newRow job.pageId dD now],
       verss ++ [⟨dB.id, dB.content, job.triggeredBy⟩, ⟨dC.id, dC.content, job.triggeredBy⟩],
       snaps ++ [⟨job.pageId, strBytes job.yjsState, job.timestamp / 1000,
         job.triggeredBy, now⟩]⟩ := by
  have hothersPage : ∀ r ∈ others, (r.pageId == job.pageId) = false := fun r hr => by
    simpa using (hothers r hr).1
  have bA : ∀ r ∈ others, r.id ≠ rA.id := fun r hr => (hothers r hr).2.1
  have bB : ∀ r ∈ others, r.id ≠ rB.id := fun r hr => (hothers r hr).2.2.1
  have bC : ∀ r ∈ others, r.id ≠ rC.id := fun r hr => (hothers r hr).2.2.2.1
  have bD : ∀ r ∈ others, r.id ≠ dD.id := fun r hr => (hothers r hr).2.2.2.2
  have hEx : ((others ++ [rA, rB, rC]).filter fun b => b.pageId == job.pageId).map
      (fun b => b.id) = [rA.id, rB.id, rC.id] := by
    rw [List.filter_append, filter_none others _ hothersPage]
    simp [List.filter_cons, hpA, hpB, hpC]
  have hDel : (([rA.id, rB.id, rC.id].filter fun i =>
      !([dB, dC, dD].map (fun b => b.id)).contains i)) = [rA.id] := by
    simp only [List.map_cons, List.map_nil, hdB, hdC]
    simp [strContains_eq, hAB, hAC, hAD, hBC, hCD, Ne.symm hBC]
  have hAfter : ((others ++ [rA, rB, rC]).filter fun b => !([rA.id].contains b.id)) =
      others ++ [rB, rC] := by
    rw [List.filter_append]
    rw [filter_all others _ (fun r hr => by simp [strContains_eq, bA r hr])]
    simp [List.filter_cons, strContains_eq, Ne.symm hAB, Ne.symm hAC]
  have any1 : ((others ++ [rB, rC]).any fun r => r.id == dB.id) = true := by
    simp [List.any_append, hdB]
  have map1 : ((others ++ [rB, rC]).map fun r =>
      if r.id == dB.id then updateRow r dB now else r) =
      others ++ [updateRow rB dB now, rC] := by
    rw [List.map_append, map_update_skip others dB.id _ (fun r hr => hdB ▸ bB r hr)]
    simp [hdB, Ne.symm hBC]
  have any2 : ((others ++ [updateRow rB dB now, rC]).any fun r => r.id == dC.id) = true := by
    simp [List.any_append, hdC]
  have map2 : ((others ++ [updateRow rB dB now, rC]).map fun r =>
      if r.id == dC.id then updateRow r dC now else r) =
      others ++ [updateRow rB dB now, updateRow rC dC now] := by
    rw [List.map_append, map_update_skip others dC.id _ (fun r hr => hdC ▸ bC r hr)]
    simp [updateRow, hdC, hBC]
  have any3 : ((others ++ [updateRow rB dB now, updateRow rC dC now]).any fun r =>
      r.id == dD.id) = false := by
    rw [List.any_append, any_id_false others dD.id bD]
    simp [updateRow, hBD, hCD]
  have cont1 : ([rA.id, rB.id, rC.id].contains dB.id) = true := by
    simp [strContains_eq, hdB]
  have cont2 : ([rA.id, rB.id, rC.id].contains dC.id) = true := by
    simp [strContains_eq, hdC]
  have cont3 : ([rA.id, rB.id, rC.id].contains dD.id) = false := by
    simp [strContains_eq, Ne.symm hAD, Ne.symm hBD, Ne.symm hCD]
  have step1 : ∀ vs : List BlockVersionRow,
      upsertStep job.pageId now [rA.id, rB.id, rC.id] job.triggeredBy
        (others ++ [rB, rC], vs) dB =
      (others ++ [updateRow rB dB now, rC], vs ++ [⟨dB.id, dB.content, job.triggeredBy⟩]) := by
    intro vs
    simp only [upsertStep, upsertBlock, any1, map1, cont1]
    simp
  have step2 : ∀ vs : List BlockVersionRow,
      upsertStep job.pageId now [rA.id, rB.id, rC.id] job.triggeredBy
        (others ++ [updateRow rB dB now, rC], vs) dC =
      (others ++ [updateRow rB dB now, updateRow rC dC now],
       vs ++ [⟨dC.id, dC.content, job.triggeredBy⟩]) := by
    intro vs
    simp only [upsertStep, upsertBlock, any2, map2, cont2]
    simp
  have step3 : ∀ vs : List BlockVersionRow,
      upsertStep job.pageId now [rA.id, rB.id, rC.id] job.triggeredBy
        (others ++ [updateRow rB dB now, updateRow rC dC now], vs) dD =
      (others ++ [updateRow rB dB now, updateRow rC dC now] ++ [newRow job.pageId dD now],
       vs) := by
    intro vs
    simp only [upsertStep, upsertBlock, any3, cont3]
    simp
  simp only [processSnapshotTx]
  rw [hEx, hDel, hAfter]
  rw [List.foldl_cons, step1 verss, List.foldl_cons, step2 _, List.foldl_cons, step3 _,
    List.foldl_nil]
  simp [List.append_assoc]

/-- C1 witness: the amended diff-correctness theorem applied at a concrete
store — page "p1" holds ids a, b, c, page "p9" holds an unrelated row, and
the decoded list carries b, c and a fresh d. -/
theorem c1_diff_correctness_witness :
    processSnapshotTx
        ⟨[⟨"z", "p9", "t", ⟨"Z", []⟩, none, 0, 0⟩] ++
          [⟨"a", "p1", "t", ⟨"A", []⟩, none, 0, 0⟩,
           ⟨"b", "p1", "t", ⟨"B", []⟩, none, 1, 0⟩,
           ⟨"c", "p1", "t", ⟨"C", []⟩, none, 2, 0⟩], [], []⟩
        ⟨"p1", "s", "u", 1000⟩
        [⟨"b", "t", ⟨"B2", []⟩, none, 0⟩, ⟨"c", "t", ⟨"C2", []⟩, none, 1⟩,
         ⟨"d", "t", ⟨"D2", []⟩, none, 2⟩] 7 =
      ⟨[⟨"z", "p9", "t", ⟨"Z", []⟩, none, 0, 0⟩] ++
        [updateRow ⟨"b", "p1", "t", ⟨"B", []⟩, none, 1, 0⟩ ⟨"b", "t", ⟨"B2", []⟩, none, 0⟩ 7,
         updateRow ⟨"c", "p1", "t", ⟨"C", []⟩, none, 2, 0⟩ ⟨"c", "t", ⟨"C2", []⟩, none, 1⟩ 7,
         newRow "p1" ⟨"d", "t", ⟨"D2", []⟩, none, 2⟩ 7],
       [] ++ [⟨"b", ⟨"B2", []⟩, "u"⟩, ⟨"c", ⟨"C2", []⟩, "u"⟩],
       [] ++ [⟨"p1", strBytes "s", 1, "u", 7⟩]⟩ :=
  c1_diff_correctness [⟨"z", "p9", "t", ⟨"Z", []⟩, none, 0, 0⟩]
    ⟨"a", "p1", "t", ⟨"A", []⟩, none, 0, 0⟩
    ⟨"b", "p1", "t", ⟨"B", []⟩, none, 1, 0⟩
    ⟨"c", "p1", "t", ⟨"C", []⟩, none, 2, 0⟩
    ⟨"b", "t", ⟨"B2", []⟩, none, 0⟩ ⟨"c", "t", ⟨"C2", []⟩, none, 1⟩
    ⟨"d", "t", ⟨"D2", []⟩, none, 2⟩ ⟨"p1", "s", "u", 1000⟩ 7 [] []
    rfl rfl rfl rfl rfl (by decide) (by decide) (by decide) (by decide) (by decide)
    (by decide) (by decide)

/-- C9: a job whose decoded block list is empty — as produced, in particular,
by the catch branch of the block extractor when a traversal error hits before
any block is accumulated — makes the transaction delete every Node row of the
page, append no version rows, append exactly one SnapshotRecord, and commit,
leaving other pages' rows (under the primary-key uniqueness invariant of the
block table) untouched. -/
theorem c9_empty_decode_deletes_page (db : Db) (job : SnapshotJobData) (now : Nat)
    (hnodup : (db.blocks.map (fun r => r.id)).Nodup) :
    (processSnapshotTx db job [] now).blocks =
        db.blocks.filter (fun r => !(r.pageId == job.pageId)) ∧
    (processSnapshotTx db job [] now).blockVersions = db.blockVersions ∧
    (processSnapshotTx db job [] now).yjsSnapshots =
        db.yjsSnapshots ++ [⟨job.pageId, strBytes job.yjsState, job.timestamp / 1000,
          job.triggeredBy, now⟩] ∧
    ∀ fragment : List YXml, yjsToBlocksUpTo fragment 0 = [] := by
  refine ⟨?_, by simp [processSnapshotTx], by simp [processSnapshotTx],
    fun fragment => by simp [yjsToBlocksUpTo, yjsToBlocksGo]⟩
  simp only [processSnapshotTx, List.map_nil, List.foldl_nil]
  have hdel : ((db.blocks.filter (fun b => b.pageId == job.pageId)).map (fun b => b.id)).filter
      (fun i => !(([] : List String).contains i)) =
      (db.blocks.filter (fun b => b.pageId == job.pageId)).map (fun b => b.id) := by
    apply List.filter_eq_self.mpr
    intro a _
    simp [strContains_eq]
  rw [hdel]
  apply List.filter_congr
  intro b hb
  congr 1
  rw [strContains_eq]
  cases hpage : (b.pageId == job.pageId) with
  | true =>
    apply decide_eq_true
    exact List.mem_map.mpr ⟨b, List.mem_filter.mpr ⟨hb, hpage⟩, rfl⟩
  | false =>
    apply decide_eq_false
    intro hmem
    obtain ⟨r, hrmem, hrid⟩ := List.mem_map.mp hmem
    have hrdb : r ∈ db.blocks := (List.mem_filter.mp hrmem).1
    have hrpage : (r.pageId == job.pageId) = true := (List.mem_filter.mp hrmem).2
    have : r = b := List.inj_on_of_nodup_map hnodup hrdb hb hrid
    rw [this] at hrpage
    rw [hrpage] at hpage
    exact Bool.true_eq_false.mp hpage

/-- C9 witness: the empty-decode theorem applied at a concrete store holding
rows of pages "p1" and "p2" and a job for "p1". -/
theorem c9_empty_decode_deletes_page_witness :
    (processSnapshotTx
        ⟨[⟨"a", "p1", "t", ⟨"A", []⟩, none, 0, 0⟩, ⟨"b", "p2", "t", ⟨"B", []⟩, none, 0, 0⟩],
         [], []⟩ ⟨"p1", "s", "u", 2000⟩ [] 9).blocks =
      [⟨"b", "p2", "t", ⟨"B", []⟩, none, 0, 0⟩] ∧
    (processSnapshotTx
        ⟨[⟨"a", "p1", "t", ⟨"A", []⟩, none, 0, 0⟩, ⟨"b", "p2", "t", ⟨"B", []⟩, none, 0, 0⟩],
         [], []⟩ ⟨"p1", "s", "u", 2000⟩ [] 9).yjsSnapshots =
      [⟨"p1", strBytes "s", 2, "u", 9⟩] := by
  have h := c9_empty_decode_deletes_page
    ⟨[⟨"a", "p1", "t", ⟨"A", []⟩, none, 0, 0⟩, ⟨"b", "p2", "t", ⟨"B", []⟩, none, 0, 0⟩],
     [], []⟩ ⟨"p1", "s", "u", 2000⟩ 9 (by decide)
  refine ⟨?_, ?_⟩
  · rw [h.1]; decide
  · rw [h.2.2.1]; decide

/-- `List.contains` on strings as membership. -/
theorem strContains_iff (l : List String) (a : String) : l.contains a = true ↔ a ∈ l := by
  rw [strContains_eq]
  exact decide_eq_true_iff

/-- The blocks component of the worker transaction is the upsert fold over the
table after the deletion phase. -/
theorem upsertFold_fst (p : String) (now : Nat) (ex : List String) (trig : String) :
    ∀ (bs : List BlockData) (rows : List BlockRow) (vers : List BlockVersionRow),
      (bs.foldl (upsertStep p now ex trig) (rows, vers)).1 =
      bs.foldl (upsertBlock p now) rows := by
  intro bs
  induction bs with
  | nil => intro rows vers; rfl
  | cons b t ih =>
    intro rows vers
    simp only [List.foldl_cons, upsertStep]
    exact ih _ _

/-- The versions component of the worker transaction appends one version row
per decoded block whose id was already stored for the page, in decoded
order. -/
theorem upsertFold_snd (p : String) (now : Nat) (ex : List String) (trig : String) :
    ∀ (bs : List BlockData) (rows : List BlockRow) (vers : List BlockVersionRow),
      (bs.foldl (upsertStep p now ex trig) (rows, vers)).2 =
      vers ++ (bs.filter (fun d => ex.contains d.id)).map
        (fun d => (⟨d.id, d.content, trig⟩ : BlockVersionRow)) := by
  intro bs
  induction bs with
  | nil => intro rows vers; simp
  | cons b t ih =>
    intro rows vers
    simp only [List.foldl_cons, upsertStep, List.filter_cons]
    cases hb : ex.contains b.id with
    | true =>
      simp only [hb, if_true]
      rw [ih]
      simp
    | false =>
      simp only [hb, Bool.false_eq_true, if_false]
      rw [ih]

/-- Ids and pages of the rows after one upsert: unchanged when the id is
present, extended by the new row's id on this page otherwise. -/
theorem upsertBlock_proj (p : String) (now : Nat) (rows : List BlockRow) (b : BlockData) :
    (upsertBlock p now rows b).map (fun r => (r.id, r.pageId)) =
    if rows.any (fun r => r.id == b.id) then rows.map (fun r => (r.id, r.pageId))
    else rows.map (fun r => (r.id, r.pageId)) ++ [(b.id, p)] := by
  unfold upsertBlock
  by_cases hany : (rows.any fun r => r.id == b.id) = true
  · rw [if_pos hany, if_pos hany, List.map_map]
    apply List.map_congr_left
    intro r _
    simp only [Function.comp_apply]
    by_cases h2 : (r.id == b.id) = true
    · rw [if_pos h2]
      simp [updateRow]
    · rw [if_neg h2]
  · rw [if_neg hany, if_neg hany, List.map_append]
    simp [newRow]

/-- A row with a given id and page survives any upsert. -/
theorem upsertBlock_preserves (p : String) (now : Nat) (rows : List BlockRow) (b : BlockData)
    (i q : String) (h : ∃ r ∈ rows, r.id = i ∧ r.pageId = q) :
    ∃ r ∈ upsertBlock p now rows b, r.id = i ∧ r.pageId = q := by
  obtain ⟨r, hr, hid, hpg⟩ := h
  unfold upsertBlock
  by_cases hany : (rows.any fun r => r.id == b.id) = true
  · rw [if_pos hany]
    refine ⟨if r.id == b.id then updateRow r b now else r, List.mem_map.mpr ⟨r, hr, rfl⟩, ?_⟩
    by_cases h2 : (r.id == b.id) = true
    · rw [if_pos h2]
      exact ⟨hid, hpg⟩
    · rw [if_neg h2]
      exact ⟨hid, hpg⟩
  · rw [if_neg hany]
    exact ⟨r, List.mem_append_left _ hr, hid, hpg⟩

/-- Every row after an upsert either shares id and page with a previous row or
is this page's row for the upserted id. -/
theorem upsertBlock_origin (p : String) (now : Nat) (rows : List BlockRow) (b : BlockData)
    (r2 : BlockRow) (h : r2 ∈ upsertBlock p now rows b) :
    (∃ r ∈ rows, r2.id = r.id ∧ r2.pageId = r.pageId) ∨ (r2.id = b.id ∧ r2.pageId = p) := by
  unfold upsertBlock at h
  by_cases hany : (rows.any fun r => r.id == b.id) = true
  · rw [if_pos hany] at h
    obtain ⟨r, hr, hr2⟩ := List.mem_map.mp h
    by_cases h2 : (r.id == b.id) = true
    · rw [if_pos h2] at hr2
      exact Or.inl ⟨r, hr, by rw [← hr2]; exact ⟨rfl, rfl⟩⟩
    · rw [if_neg h2] at hr2
      exact Or.inl ⟨r, hr, by rw [← hr2]; exact ⟨rfl, rfl⟩⟩
  · rw [if_neg hany] at h
    rcases List.mem_append.mp h with h1 | h1
    · exact Or.inl ⟨r2, h1, rfl, rfl⟩
    · rcases List.mem_singleton.mp h1 with rfl
      exact Or.inr ⟨rfl, rfl⟩

/-- A row with a given id and page survives the whole upsert fold. -/
theorem foldl_upsert_preserves (p : String) (now : Nat) :
    ∀ (bs : List BlockData) (rows : List BlockRow) (i q : String),
      (∃ r ∈ rows, r.id = i ∧ r.pageId = q) →
      ∃ r ∈ bs.foldl (upsertBlock p now) rows, r.id = i ∧ r.pageId = q := by
  intro bs
  induction bs with
  | nil => intro rows i q h; exact h
  | cons b t ih =>
    intro rows i q h
    simp only [List.foldl_cons]
    exact ih _ i q (upsertBlock_preserves p now rows b i q h)

/-- When every decoded id that appears among the rows lies on this page, the
fold ends with a row of this page for every decoded id. -/
theorem foldl_upsert_provides (p : String) (now : Nat) :
    ∀ (bs : List BlockData) (rows : List BlockRow),
      (∀ d ∈ bs, ∀ r ∈ rows, r.id = d.id → r.pageId = p) →
      ∀ d ∈ bs, ∃ r ∈ bs.foldl (upsertBlock p now) rows, r.id = d.id ∧ r.pageId = p := by
  intro bs
  induction bs with
  | nil => intro rows _ d hd; exact absurd hd (List.not_mem_nil d)
  | cons b t ih =>
    intro rows hcross d hd
    have hcross2 : ∀ d ∈ t, ∀ r2 ∈ upsertBlock p now rows b, r2.id = d.id → r2.pageId = p := by
      intro d2 hd2 r2 hr2 hid2
      rcases upsertBlock_origin p now rows b r2 hr2 with ⟨r, hr, hir, hpr⟩ | ⟨_, hpb⟩
      · rw [hpr]
        exact hcross d2 (List.mem_cons_of_mem b hd2) r hr (by rw [← hir, hid2])
      · exact hpb
    rcases List.mem_cons.mp hd with rfl | hdt
    · -- the upsert of d itself puts (or keeps) a row of this page with its id
      have hstep : ∃ r ∈ upsertBlock p now rows d, r.id = d.id ∧ r.pageId = p := by
        unfold upsertBlock
        by_cases hany : (rows.any fun r => r.id == d.id) = true
        · rw [if_pos hany]
          obtain ⟨r, hr, hrb⟩ := List.any_eq_true.mp hany
          have hrid : r.id = d.id := by simpa using hrb
          refine ⟨if r.id == d.id then updateRow r d now else r,
            List.mem_map.mpr ⟨r, hr, rfl⟩, ?_⟩
          have h2 : (r.id == d.id) = true := by simpa using hrid
          rw [if_pos h2]
          exact ⟨hrid, hcross d (List.mem_cons_self d t) r hr hrid⟩
        · rw [if_neg hany]
          exact ⟨newRow p d now, List.mem_append_right _ (List.mem_singleton.mpr rfl),
            rfl, rfl⟩
      simp only [List.foldl_cons]
      exact foldl_upsert_preserves p now t _ d.id p hstep
    · simp only [List.foldl_cons]
      exact ih (upsertBlock p now rows b) hcross2 d hdt

/-- Every row after the fold either shares id and page with an original row or
is this page's row for a decoded id. -/
theorem foldl_upsert_origin (p : String) (now : Nat) :
    ∀ (bs : List BlockData) (rows : List BlockRow) (r2 : BlockRow),
      r2 ∈ bs.foldl (upsertBlock p now) rows →
      (∃ r ∈ rows, r2.id = r.id ∧ r2.pageId = r.pageId) ∨
        (∃ d ∈ bs, r2.id = d.id ∧ r2.pageId = p) := by
  intro bs
  induction bs with
  | nil => intro rows r2 h; exact Or.inl ⟨r2, h, rfl, rfl⟩
  | cons b t ih =>
    intro rows r2 h
    simp only [List.foldl_cons] at h
    rcases ih (upsertBlock p now rows b) r2 h with ⟨r, hr, hir, hpr⟩ | ⟨d, hd, hid, hpg⟩
    · rcases upsertBlock_origin p now rows b r hr with ⟨r0, hr0, hir0, hpr0⟩ | ⟨hib, hpb⟩
      · exact Or.inl ⟨r0, hr0, hir.trans hir0, hpr.trans hpr0⟩
      · exact Or.inr ⟨b, List.mem_cons_self b t, hir.trans hib, hpr.trans hpb⟩
    · exact Or.inr ⟨d, List.mem_cons_of_mem b hd, hid, hpg⟩

/-- The upsert fold keeps the table's ids duplicate free. -/
theorem foldl_upsert_nodup (p : String) (now : Nat) :
    ∀ (bs : List BlockData) (rows : List BlockRow),
      (rows.map (fun r => r.id)).Nodup →
      ((bs.foldl (upsertBlock p now) rows).map (fun r => r.id)).Nodup := by
  intro bs
  induction bs with
  | nil => intro rows h; exact h
  | cons b t ih =>
    intro rows h
    simp only [List.foldl_cons]
    apply ih
    have hproj := upsertBlock_proj p now rows b
    have hids : (upsertBlock p now rows b).map (fun r => r.id) =
        if rows.any (fun r => r.id == b.id) then rows.map (fun r => r.id)
        else rows.map (fun r => r.id) ++ [b.id] := by
      have := congrArg (List.map Prod.fst) hproj
      simpa [List.map_map, Function.comp, apply_ite (List.map Prod.fst)] using this
    rw [hids]
    by_cases hany : (rows.any fun r => r.id == b.id) = true
    · rwa [if_pos hany]
    · rw [if_neg hany]
      have hnb : b.id ∉ rows.map (fun r => r.id) := by
        intro hmem
        obtain ⟨r, hr, hrid⟩ := List.mem_map.mp hmem
        exact hany (List.any_eq_true.mpr ⟨r, hr, by simpa using hrid⟩)
      simp [List.nodup_append, h, hnb]

/-- When every decoded id is already present among the rows, the fold performs
updates only: the list of (id, page) pairs is unchanged. -/
theorem foldl_upsert_proj (p : String) (now : Nat) :
    ∀ (bs : List BlockData) (rows : List BlockRow),
      (∀ d ∈ bs, ∃ r ∈ rows, r.id = d.id) →
      (bs.foldl (upsertBlock p now) rows).map (fun r => (r.id, r.pageId)) =
        rows.map (fun r => (r.id, r.pageId)) := by
  intro bs
  induction bs with
  | nil => intro rows _; rfl
  | cons b t ih =>
    intro rows hpres
    have hany : (rows.any fun r => r.id == b.id) = true := by
      obtain ⟨r, hr, hrid⟩ := hpres b (List.mem_cons_self b t)
      exact List.any_eq_true.mpr ⟨r, hr, by simpa using hrid⟩
    have hproj := upsertBlock_proj p now rows b
    rw [if_pos hany] at hproj
    have hpres2 : ∀ d ∈ t, ∃ r ∈ upsertBlock p now rows b, r.id = d.id := by
      intro d hd
      obtain ⟨r, hr, hrid⟩ := hpres d (List.mem_cons_of_mem b hd)
      obtain ⟨r2, hr2, hid2, _⟩ :=
        upsertBlock_preserves p now rows b r.id r.pageId ⟨r, hr, rfl, rfl⟩
      exact ⟨r2, hr2, hid2.trans hrid⟩
    simp only [List.foldl_cons]
    rw [ih (upsertBlock p now rows b) hpres2, hproj]

/-- In a table with duplicate-free ids holding a row with the given id on the
given page, exactly one row matches that (page, id) pair. -/
theorem count_id_page (l : List BlockRow) (hnd : (l.map (fun r => r.id)).Nodup)
    (i q : String) (hex : ∃ r ∈ l, r.id = i ∧ r.pageId = q) :
    (l.filter (fun r => r.pageId == q && r.id == i)).length = 1 := by
  induction l with
  | nil => obtain ⟨r, hr, _⟩ := hex; exact absurd hr (List.not_mem_nil r)
  | cons a t ih =>
    have hta : a.id ∉ t.map (fun r => r.id) := (List.nodup_cons.mp (by simpa using hnd)).1
    by_cases hai : a.id = i
    · have haq : a.pageId = q := by
        obtain ⟨r, hr, hri, hrq⟩ := hex
        rcases List.mem_cons.mp hr with rfl | hrt
        · exact hrq
        · exact absurd (List.mem_map.mpr ⟨r, hrt, hri.trans hai.symm⟩) (hai ▸ hta)
      have hcond : (a.pageId == q && a.id == i) = true := by simp [hai, haq]
      rw [List.filter_cons, if_pos hcond]
      have hrest : t.filter (fun r => r.pageId == q && r.id == i) = [] := by
        apply List.filter_eq_nil_iff.mpr
        intro r hr
        intro hcond2
        have hri : r.id = i := by
          simp only [Bool.and_eq_true, beq_iff_eq] at hcond2
          exact hcond2.2
        exact hta (List.mem_map.mpr ⟨r, hr, hri.trans hai.symm⟩)
      simp [hrest]
    · have hcond : (a.pageId == q && a.id == i) = false := by
        simp [hai]
      rw [List.filter_cons, hcond]
      simp only [Bool.false_eq_true, if_false]
      apply ih ((List.nodup_cons.mp (by simpa using hnd)).2)
      obtain ⟨r, hr, hri, hrq⟩ := hex
      rcases List.mem_cons.mp hr with rfl | hrt
      · exact absurd hri hai
      · exact ⟨r, hrt, hri, hrq⟩

/-- The blocks component of the worker transaction, written as the upsert
fold over the table left by the deletion phase. -/
theorem processSnapshotTx_blocks (d : Db) (job : SnapshotJobData) (blocks : List BlockData)
    (nowx : Nat) :
    (processSnapshotTx d job blocks nowx).blocks =
      blocks.foldl (upsertBlock job.pageId nowx)
        (d.blocks.filter (fun b =>
          !((((d.blocks.filter (fun b => b.pageId == job.pageId)).map (fun b => b.id)).filter
            (fun i => !((blocks.map (fun b => b.id)).contains i))).contains b.id))) := by
  simp only [processSnapshotTx]
  exact upsertFold_fst _ _ _ _ _ _ _

/-- The snapshot component of the worker transaction: exactly one appended
row. -/
theorem processSnapshotTx_snapshots (d : Db) (job : SnapshotJobData) (blocks : List BlockData)
    (nowx : Nat) :
    (processSnapshotTx d job blocks nowx).yjsSnapshots =
      d.yjsSnapshots ++ [⟨job.pageId, strBytes job.yjsState, job.timestamp / 1000,
        job.triggeredBy, nowx⟩] := by
  simp only [processSnapshotTx]

/-- After one run of the transaction on a duplicate-free table whose rows
never carry a decoded id on a foreign page: ids stay duplicate free, every
decoded id has a row on the job's page, and every row on the job's page
carries a decoded id. -/
theorem processTx_blocks_facts (d : Db) (job : SnapshotJobData) (blocks : List BlockData)
    (nowx : Nat)
    (hnodup : (d.blocks.map (fun r => r.id)).Nodup)
    (hcross : ∀ b ∈ blocks, ∀ r ∈ d.blocks, r.id = b.id → r.pageId = job.pageId) :
    ((processSnapshotTx d job blocks nowx).blocks.map (fun r => r.id)).Nodup ∧
    (∀ b ∈ blocks, ∃ r ∈ (processSnapshotTx d job blocks nowx).blocks,
        r.id = b.id ∧ r.pageId = job.pageId) ∧
    (∀ r ∈ (processSnapshotTx d job blocks nowx).blocks, r.pageId = job.pageId →
        r.id ∈ blocks.map (fun b => b.id)) := by
  rw [processSnapshotTx_blocks]
  have hAnodup : ((d.blocks.filter (fun b =>
      !((((d.blocks.filter (fun b => b.pageId == job.pageId)).map (fun b => b.id)).filter
        (fun i => !((blocks.map (fun b => b.id)).contains i))).contains b.id))).map
      (fun r => r.id)).Nodup :=
    List.Nodup.sublist (List.Sublist.map _ (List.filter_sublist _)) hnodup
  have hAcross : ∀ b ∈ blocks, ∀ r ∈ d.blocks.filter (fun b =>
      !((((d.blocks.filter (fun b => b.pageId == job.pageId)).map (fun b => b.id)).filter
        (fun i => !((blocks.map (fun b => b.id)).contains i))).contains b.id)),
      r.id = b.id → r.pageId = job.pageId := by
    intro b hb r hr hid
    exact hcross b hb r (List.mem_filter.mp hr).1 hid
  refine ⟨foldl_upsert_nodup _ _ _ _ hAnodup, foldl_upsert_provides _ _ _ _ hAcross, ?_⟩
  intro r hr hpage
  rcases foldl_upsert_origin _ _ _ _ _ hr with ⟨r0, hr0A, hir, hpr⟩ | ⟨dd, hdd, hid, _⟩
  · have hr0db : r0 ∈ d.blocks := (List.mem_filter.mp hr0A).1
    have hpred := (List.mem_filter.mp hr0A).2
    have hr0page : r0.pageId = job.pageId := by rw [← hpr, ← hpage]
    by_contra hno
    have hno0 : r0.id ∉ blocks.map (fun b => b.id) := by rwa [← hir]
    have hcont : ((blocks.map (fun b => b.id)).contains r0.id) = false := by
      rw [strContains_eq]
      exact decide_eq_false hno0
    have hex : r0.id ∈ (d.blocks.filter (fun b => b.pageId == job.pageId)).map
        (fun b => b.id) :=
      List.mem_map.mpr ⟨r0, List.mem_filter.mpr ⟨hr0db, by simp [hr0page]⟩, rfl⟩
    have hindel : r0.id ∈ ((d.blocks.filter (fun b => b.pageId == job.pageId)).map
        (fun b => b.id)).filter (fun i => !((blocks.map (fun b => b.id)).contains i)) :=
      List.mem_filter.mpr ⟨hex, by rw [hcont]; rfl⟩
    rw [← strContains_iff] at hindel
    rw [hindel] at hpred
    simp at hpred
  · rw [hid]
    exact List.mem_map.mpr ⟨dd, hdd, rfl⟩

/-- C8 (amended): idempotence under redelivery, provided no decoded id that is
new to the page already names another page's row (every table row carrying a
decoded id lies on the job's page). Processing the same job twice leaves
exactly one Node row per (pageId, id) of the decoded list; the second run
performs no deletions and no insertions — the table's (id, page) sequence is
exactly that left by the first run, rows being only updated in place — while
one further SnapshotRecord is appended. -/
theorem c8_idempotent_redelivery (db : Db) (job : SnapshotJobData) (blocks : List BlockData)
    (now1 now2 : Nat)
    (hnodup : (db.blocks.map (fun r => r.id)).Nodup)
    (hcross : ∀ b ∈ blocks, ∀ r ∈ db.blocks, r.id = b.id → r.pageId = job.pageId) :
    (∀ d ∈ blocks,
      ((processSnapshotTx (processSnapshotTx db job blocks now1) job blocks now2).blocks.filter
        (fun r => r.pageId == job.pageId && r.id == d.id)).length = 1) ∧
    (processSnapshotTx (processSnapshotTx db job blocks now1) job blocks now2).blocks.map
        (fun r => (r.id, r.pageId)) =
      (processSnapshotTx db job blocks now1).blocks.map (fun r => (r.id, r.pageId)) ∧
    (processSnapshotTx (processSnapshotTx db job blocks now1) job blocks now2).yjsSnapshots =
      (processSnapshotTx db job blocks now1).yjsSnapshots ++
        [⟨job.pageId, strBytes job.yjsState, job.timestamp / 1000, job.triggeredBy, now2⟩] := by
  obtain ⟨h1nodup, h1prov, h1page⟩ := processTx_blocks_facts db job blocks now1 hnodup hcross
  have htoDel2 : (((processSnapshotTx db job blocks now1).blocks.filter
      (fun b => b.pageId == job.pageId)).map (fun b => b.id)).filter
      (fun i => !((blocks.map (fun b => b.id)).contains i)) = [] := by
    apply List.filter_eq_nil_iff.mpr
    intro i hi
    obtain ⟨r, hrf, hri⟩ := List.mem_map.mp hi
    have hrmem := (List.mem_filter.mp hrf).1
    have hrpage : r.pageId = job.pageId := by simpa using (List.mem_filter.mp hrf).2
    have hmem : r.id ∈ blocks.map (fun b => b.id) := h1page r hrmem hrpage
    rw [hri] at hmem
    simp [strContains_eq, hmem]
  have hA2 : (processSnapshotTx db job blocks now1).blocks.filter
      (fun b => !(([] : List String).contains b.id)) =
      (processSnapshotTx db job blocks now1).blocks := by
    apply List.filter_eq_self.mpr
    intro r _
    simp [strContains_eq]
  have hblocks2 : (processSnapshotTx (processSnapshotTx db job blocks now1) job blocks
      now2).blocks = blocks.foldl (upsertBlock job.pageId now2)
      (processSnapshotTx db job blocks now1).blocks := by
    rw [processSnapshotTx_blocks, htoDel2, hA2]
  refine ⟨?_, ?_, processSnapshotTx_snapshots _ job blocks now2⟩
  · intro d hd
    have h2nodup : ((processSnapshotTx (processSnapshotTx db job blocks now1) job blocks
        now2).blocks.map (fun r => r.id)).Nodup := by
      rw [hblocks2]
      exact foldl_upsert_nodup _ _ _ _ h1nodup
    have h2prov : ∃ r ∈ (processSnapshotTx (processSnapshotTx db job blocks now1) job blocks
        now2).blocks, r.id = d.id ∧ r.pageId = job.pageId := by
      rw [hblocks2]
      exact foldl_upsert_preserves _ _ _ _ _ _ (h1prov d hd)
    exact count_id_page _ h2nodup d.id job.pageId h2prov
  · rw [hblocks2]
    apply foldl_upsert_proj
    intro d hd
    obtain ⟨r, hr, hid, _⟩ := h1prov d hd
    exact ⟨r, hr, hid⟩

/-- C8 witness: the amended idempotence theorem applied at a concrete store —
page "p1" already holds id a, page "p9" holds an unrelated id z, and the job
for "p1" decodes ids a (an update) and n (an insertion); the job is processed
twice. -/
theorem c8_idempotent_redelivery_witness :
    ((processSnapshotTx (processSnapshotTx
        ⟨[⟨"a", "p1", "t", ⟨"A", []⟩, none, 0, 0⟩, ⟨"z", "p9", "t", ⟨"Z", []⟩, none, 0, 0⟩],
         [], []⟩
        ⟨"p1", "s", "u", 1000⟩
        [⟨"a", "t", ⟨"A2", []⟩, none, 0⟩, ⟨"n", "t", ⟨"N", []⟩, none, 1⟩] 1)
        ⟨"p1", "s", "u", 1000⟩
        [⟨"a", "t", ⟨"A2", []⟩, none, 0⟩, ⟨"n", "t", ⟨"N", []⟩, none, 1⟩] 2).blocks.filter
      (fun r => r.pageId == "p1" && r.id == "n")).length = 1 ∧
    (processSnapshotTx (processSnapshotTx
        ⟨[⟨"a", "p1", "t", ⟨"A", []⟩, none, 0, 0⟩, ⟨"z", "p9", "t", ⟨"Z", []⟩, none, 0, 0⟩],
         [], []⟩
        ⟨"p1", "s", "u", 1000⟩
        [⟨"a", "t", ⟨"A2", []⟩, none, 0⟩, ⟨"n", "t", ⟨"N", []⟩, none, 1⟩] 1)
        ⟨"p1", "s", "u", 1000⟩
        [⟨"a", "t", ⟨"A2", []⟩, none, 0⟩, ⟨"n", "t", ⟨"N", []⟩, none, 1⟩] 2).blocks.map
      (fun r => (r.id, r.pageId)) =
    (processSnapshotTx
        ⟨[⟨"a", "p1", "t", ⟨"A", []⟩, none, 0, 0⟩, ⟨"z", "p9", "t", ⟨"Z", []⟩, none, 0, 0⟩],
         [], []⟩
        ⟨"p1", "s", "u", 1000⟩
        [⟨"a", "t", ⟨"A2", []⟩, none, 0⟩, ⟨"n", "t", ⟨"N", []⟩, none, 1⟩] 1).blocks.map
      (fun r => (r.id, r.pageId)) := by
  have h := c8_idempotent_redelivery
    ⟨[⟨"a", "p1", "t", ⟨"A", []⟩, none, 0, 0⟩, ⟨"z", "p9", "t", ⟨"Z", []⟩, none, 0, 0⟩],
     [], []⟩
    ⟨"p1", "s", "u", 1000⟩
    [⟨"a", "t", ⟨"A2", []⟩, none, 0⟩, ⟨"n", "t", ⟨"N", []⟩, none, 1⟩] 1 2
    (by decide) (by decide)
  exact ⟨h.1 ⟨"n", "t", ⟨"N", []⟩, none, 1⟩ (by decide), h.2.1⟩

/-- C3 (amended): the cache functions catch nothing. A cache read that throws
propagates out of `fetch` without consulting the durable fallback; a cache
write that throws propagates out of `store`; a repopulation write that throws
aborts the fetch after the snapshot was found. Only a cache read returning
absent is treated as a miss: with working calls, a miss never makes the fetch
throw (the durable fallback answers, or the fetch reports no data). -/
theorem c3_cache_errors_propagate :
    (∀ (db : Db) (w : Except Unit Unit) (documentName : String),
      fetchDocument (Except.error ()) db w documentName = Except.error ()) ∧
    (∀ (documentName : String) (state : List Nat),
      storeDocument (Except.error ()) documentName state = Except.error ()) ∧
    (∀ (db : Db) (documentName : String) (snap : SnapshotRow),
      findLatestSnapshot (db.yjsSnapshots.filter
        (fun s => s.pageId == pageIdOf documentName)) = some snap →
      fetchDocument (Except.ok none) db (Except.error ()) documentName = Except.error ()) ∧
    (∀ (db : Db) (documentName : String),
      ∃ v, fetchDocument (Except.ok none) db (Except.ok ()) documentName = Except.ok v) := by
  refine ⟨fun db w documentName => rfl, fun documentName state => rfl, ?_, ?_⟩
  · intro db documentName snap h
    simp [fetchDocument, h]
  · intro db documentName
    cases hf : findLatestSnapshot (db.yjsSnapshots.filter
        (fun s => s.pageId == pageIdOf documentName)) with
    | none => exact ⟨(none, none), by simp [fetchDocument, hf]⟩
    | some snap =>
      exact ⟨(some snap.snapshot, some ⟨cacheKey documentName, snap.snapshot, 3600⟩),
        by simp [fetchDocument, hf]⟩

/-- C3 witness: the error-propagation theorem applied at concrete calls — a
read error with a nonempty durable log, a store error, and a repopulation
error. -/
theorem c3_cache_errors_propagate_witness :
    fetchDocument (Except.error ()) ⟨[], [], [⟨"p1", [7], 0, "u1", 0⟩]⟩ (Except.ok ())
      "page:p1" = Except.error () ∧
    storeDocument (Except.error ()) "page:p1" [7] = Except.error () ∧
    fetchDocument (Except.ok none) ⟨[], [], [⟨"p1", [7], 0, "u1", 0⟩]⟩ (Except.error ())
      "page:p1" = Except.error () := by
  refine ⟨c3_cache_errors_propagate.1 _ _ _, c3_cache_errors_propagate.2.1 _ _,
    c3_cache_errors_propagate.2.2.1 _ _ ⟨"p1", [7], 0, "u1", 0⟩ (by decide)⟩

/-- C4 (amended): the per-document fingerprint entry is removed by the
destroy handler, not by the disconnect handler. `onDestroy` deletes the
page's fingerprint entry (and its connection set); `onDisconnect` — including
when the last session terminates — never removes an existing fingerprint
entry: afterwards the map still holds an entry for the page (the old hash, or
the freshly recorded one). -/
theorem c4_fingerprint_removed_on_destroy :
    (∀ (st : ServerState) (pageId : String),
      List.lookup pageId (onDestroy st pageId).lastSnapshotHash = none ∧
      List.lookup pageId (onDestroy st pageId).activeConnections = none) ∧
    (∀ (useQueue : Bool) (persistRes : Except Unit Unit) (doc : Option (List Nat)) (now : Nat)
      (st : ServerState) (pageId userId h : String),
      List.lookup pageId st.lastSnapshotHash = some h →
      ∃ h2, List.lookup pageId
        (onDisconnect useQueue persistRes doc now st pageId userId).lastSnapshotHash =
          some h2) := by
  constructor
  · intro st pageId
    exact ⟨lookup_mapRemove_self _ _, lookup_mapRemove_self _ _⟩
  · intro useQueue persistRes doc now st pageId userId h hl
    cases hc : List.lookup pageId st.activeConnections with
    | none =>
      refine ⟨h, ?_⟩
      simp only [onDisconnect, hc]
      exact hl
    | some conns =>
      simp only [onDisconnect, hc]
      repeat' split
      all_goals first
        | exact ⟨h, hl⟩
        | exact ⟨_, lookup_mapSet_self _ _ _⟩

/-- C4 amended witness: at a concrete state, destroying page "p1" removes its
fingerprint entry, and a (non-final) disconnect leaves it present. -/
theorem c4_fingerprint_removed_on_destroy_witness :
    List.lookup "p1" (onDestroy
      ⟨[("p1", ["u1"])], [("p1", "h0")], [], ⟨[], [], []⟩⟩ "p1").lastSnapshotHash = none ∧
    ∃ h2, List.lookup "p1" (onDisconnect false (Except.ok ()) none 0
      ⟨[("p1", ["u1", "u2"])], [("p1", "h0")], [], ⟨[], [], []⟩⟩
      "p1" "u1").lastSnapshotHash = some h2 := by
  refine ⟨(c4_fingerprint_removed_on_destroy.1
      ⟨[("p1", ["u1"])], [("p1", "h0")], [], ⟨[], [], []⟩⟩ "p1").1, ?_⟩
  exact c4_fingerprint_removed_on_destroy.2 false (Except.ok ()) none 0
    ⟨[("p1", ["u1", "u2"])], [("p1", "h0")], [], ⟨[], [], []⟩⟩ "p1" "u1" "h0" (by decide)

/-- The latest-snapshot search returns an element of the list. -/
theorem findLatest_mem :
    ∀ (l : List SnapshotRow) (b : SnapshotRow), findLatestSnapshot l = some b → b ∈ l := by
  intro l
  induction l with
  | nil => intro b h; exact absurd h (by simp [findLatestSnapshot])
  | cons r t ih =>
    intro b h
    simp only [findLatestSnapshot] at h
    cases hfl : findLatestSnapshot t with
    | none =>
      rw [hfl] at h
      exact List.mem_cons.mpr (Or.inl (Option.some.inj h).symm)
    | some c =>
      rw [hfl] at h
      replace h : (if c.createdAt ≥ r.createdAt then some c else some r) = some b := h
      by_cases hge : c.createdAt ≥ r.createdAt
      · rw [if_pos hge] at h
        have hbc : c = b := Option.some.inj h
        exact List.mem_cons_of_mem r (hbc ▸ ih c hfl)
      · rw [if_neg hge] at h
        exact List.mem_cons.mpr (Or.inl (Option.some.inj h).symm)

/-- On a log whose insertion timestamps strictly increase, the
latest-snapshot search returns the last appended record. -/
theorem findLatest_sorted (l : List SnapshotRow)
    (hsort : l.Pairwise (fun a b => a.createdAt < b.createdAt)) :
    findLatestSnapshot l = l.getLast? := by
  induction l with
  | nil => rfl
  | cons r t ih =>
    have hr := (List.pairwise_cons.mp hsort).1
    have ht := (List.pairwise_cons.mp hsort).2
    simp only [findLatestSnapshot]
    cases hfl : findLatestSnapshot t with
    | none =>
      have ht0 : t = [] := by
        have := (ih ht).symm.trans hfl
        cases t with
        | nil => rfl
        | cons x xs => simp [List.getLast?_eq_getLast] at this
      subst ht0
      rfl
    | some b =>
      have hbmem : b ∈ t := findLatest_mem t b hfl
      have hlt : r.createdAt < b.createdAt := hr b hbmem
      show (if b.createdAt ≥ r.createdAt then some b else some r) = (r :: t).getLast?
      rw [if_pos (le_of_lt hlt)]
      cases t with
      | nil => exact absurd hbmem (List.not_mem_nil b)
      | cons x xs =>
        rw [List.getLast?_cons_cons]
        exact hfl ▸ ih ht

/-- C6: cache-aside fallback. With a cold cache (the read returns absent) and
a durable log whose insertion timestamps strictly increase for the page, the
fetch returns the bytes of the page's most recent SnapshotRecord — the last
appended one — and repopulates the cache entry for the document under a fresh
3600-second TTL; and if the page's durable log is empty too, the fetch
returns absent. -/
theorem c6_cache_aside_fallback (db : Db) (documentName : String)
    (hsort : (db.yjsSnapshots.filter (fun s => s.pageId == pageIdOf documentName)).Pairwise
      (fun a b => a.createdAt < b.createdAt)) :
    (∀ snap : SnapshotRow,
      (db.yjsSnapshots.filter (fun s => s.pageId == pageIdOf documentName)).getLast? =
        some snap →
      fetchDocument (Except.ok none) db (Except.ok ()) documentName =
        Except.ok (some snap.snapshot, some ⟨cacheKey documentName, snap.snapshot, 3600⟩)) ∧
    ((db.yjsSnapshots.filter (fun s => s.pageId == pageIdOf documentName)) = [] →
      fetchDocument (Except.ok none) db (Except.ok ()) documentName =
        Except.ok (none, none)) := by
  constructor
  · intro snap hlast
    have hfind := (findLatest_sorted _ hsort).trans hlast
    simp [fetchDocument, hfind]
  · intro hnil
    simp [fetchDocument, hnil, findLatestSnapshot]

/-- C6 witness: the fallback theorem applied at a concrete log holding two
snapshots for page "p1" with increasing timestamps; the fetch returns the
later one and repopulates the cache with TTL 3600. -/
theorem c6_cache_aside_fallback_witness :
    fetchDocument (Except.ok none)
        ⟨[], [], [⟨"p1", [1], 10, "u1", 1⟩, ⟨"p1", [2, 3], 20, "u2", 2⟩,
          ⟨"p2", [9], 30, "u3", 3⟩]⟩ (Except.ok ()) "page:p1" =
      Except.ok (some [2, 3], some ⟨cacheKey "page:p1", [2, 3], 3600⟩) ∧
    fetchDocument (Except.ok none) ⟨[], [], []⟩ (Except.ok ()) "page:p9" =
      Except.ok (none, none) := by
  constructor
  · exact (c6_cache_aside_fallback
      ⟨[], [], [⟨"p1", [1], 10, "u1", 1⟩, ⟨"p1", [2, 3], 20, "u2", 2⟩, ⟨"p2", [9], 30, "u3", 3⟩]⟩
      "page:p1" (by decide)).1 ⟨"p1", [2, 3], 20, "u2", 2⟩ (by decide)
  · exact (c6_cache_aside_fallback ⟨[], [], []⟩ "page:p9" (by decide)).2 (by decide)

/-- C5: change suppression in the disconnect-triggered persistence path.
With the last session of a page disconnecting and persistence succeeding:
(a) a second disconnect-triggered attempt carrying the byte-identical
serialized state is skipped — it enqueues no job and appends no snapshot —
so two consecutive identical states produce at most one persisted
snapshot/job (conjunct (c) bounds the first attempt by one); and (b) a state
whose SHA-256 fingerprint differs from the recorded one always produces
exactly one queued job or directly saved snapshot. -/
theorem c5_change_suppression (useQueue : Bool) (st : ServerState) (pageId u1 u2 : String)
    (s : List Nat) (now1 now2 : Nat)
    (hconn : List.lookup pageId st.activeConnections = some [u1]) :
    ((onDisconnect useQueue (Except.ok ()) (some s) now2
        { onDisconnect useQueue (Except.ok ()) (some s) now1 st pageId u1 with
          activeConnections := mapSet (onDisconnect useQueue (Except.ok ()) (some s) now1 st
            pageId u1).activeConnections pageId [u2] } pageId u2).queuedJobs =
      (onDisconnect useQueue (Except.ok ()) (some s) now1 st pageId u1).queuedJobs ∧
     (onDisconnect useQueue (Except.ok ()) (some s) now2
        { onDisconnect useQueue (Except.ok ()) (some s) now1 st pageId u1 with
          activeConnections := mapSet (onDisconnect useQueue (Except.ok ()) (some s) now1 st
            pageId u1).activeConnections pageId [u2] } pageId u2).db =
      (onDisconnect useQueue (Except.ok ()) (some s) now1 st pageId u1).db) ∧
    (List.lookup pageId st.lastSnapshotHash ≠ some (calculateStateHash s) →
      (onDisconnect useQueue (Except.ok ()) (some s) now1 st pageId u1).queuedJobs.length +
        (onDisconnect useQueue (Except.ok ()) (some s) now1 st
          pageId u1).db.yjsSnapshots.length =
        st.queuedJobs.length + st.db.yjsSnapshots.length + 1) ∧
    ((onDisconnect useQueue (Except.ok ()) (some s) now1 st pageId u1).queuedJobs.length +
      (onDisconnect useQueue (Except.ok ()) (some s) now1 st
        pageId u1).db.yjsSnapshots.length ≤
      st.queuedJobs.length + st.db.yjsSnapshots.length + 1) := by
  have hfilter1 : List.filter (fun x => !(x == u1)) [u1] = [] := by simp
  have hfilter2 : List.filter (fun x => !(x == u2)) [u2] = [] := by simp
  by_cases hh : (some (calculateStateHash s) == List.lookup pageId st.lastSnapshotHash) = true
  · -- first attempt already suppressed
    have h1 : onDisconnect useQueue (Except.ok ()) (some s) now1 st pageId u1 =
        { st with activeConnections := mapRemove st.activeConnections pageId } := by
      simp [onDisconnect, hconn, hfilter1, hh]
    have h2 : onDisconnect useQueue (Except.ok ()) (some s) now2
        { onDisconnect useQueue (Except.ok ()) (some s) now1 st pageId u1 with
          activeConnections := mapSet (onDisconnect useQueue (Except.ok ()) (some s) now1 st
            pageId u1).activeConnections pageId [u2] } pageId u2 =
        { st with activeConnections := mapRemove (mapSet (mapRemove st.activeConnections
            pageId) pageId [u2]) pageId } := by
      rw [h1]
      simp [onDisconnect, lookup_mapSet_self, hfilter2, hh]
    refine ⟨⟨?_, ?_⟩, ?_, ?_⟩
    · rw [h2, h1]
    · rw [h2, h1]
    · intro hd
      have heq : some (calculateStateHash s) = List.lookup pageId st.lastSnapshotHash := by
        simpa using hh
      exact absurd heq.symm hd
    · rw [h1]
      simp
  · -- first attempt persists and records the fingerprint
    have h1 : onDisconnect useQueue (Except.ok ()) (some s) now1 st pageId u1 =
        (if useQueue then
          { st with
            activeConnections := mapRemove st.activeConnections pageId
            queuedJobs := st.queuedJobs ++ [⟨pageId, yjsStateToBase64 s, u1, now1⟩]
            lastSnapshotHash := mapSet st.lastSnapshotHash pageId (calculateStateHash s) }
        else
          { st with
            activeConnections := mapRemove st.activeConnections pageId
            db := { st.db with yjsSnapshots := st.db.yjsSnapshots ++
                [saveSnapshotDirect pageId (yjsStateToBase64 s) u1 now1 now1] }
            lastSnapshotHash := mapSet st.lastSnapshotHash pageId (calculateStateHash s) }) := by
      cases useQueue with
      | true => simp [onDisconnect, hconn, hfilter1, hh]
      | false => simp [onDisconnect, hconn, hfilter1, hh]
    cases hq : useQueue with
    | true =>
      rw [hq] at h1
      simp only [if_true] at h1
      have h2 : onDisconnect true (Except.ok ()) (some s) now2
          { onDisconnect true (Except.ok ()) (some s) now1 st pageId u1 with
            activeConnections := mapSet (onDisconnect true (Except.ok ()) (some s) now1 st
              pageId u1).activeConnections pageId [u2] } pageId u2 =
          { onDisconnect true (Except.ok ()) (some s) now1 st pageId u1 with
            activeConnections := mapRemove (mapSet (onDisconnect true (Except.ok ()) (some s)
              now1 st pageId u1).activeConnections pageId [u2]) pageId } := by
        rw [h1]
        simp [onDisconnect, lookup_mapSet_self, hfilter2]
      refine ⟨⟨?_, ?_⟩, ?_, ?_⟩
      · rw [h2]
      · rw [h2]
      · intro _
        rw [h1]
        simp
        try omega
      · rw [h1]
        simp
        try omega
    | false =>
      rw [hq] at h1
      simp only [Bool.false_eq_true, if_false] at h1
      have h2 : onDisconnect false (Except.ok ()) (some s) now2
          { onDisconnect false (Except.ok ()) (some s) now1 st pageId u1 with
            activeConnections := mapSet (onDisconnect false (Except.ok ()) (some s) now1 st
              pageId u1).activeConnections pageId [u2] } pageId u2 =
          { onDisconnect false (Except.ok ()) (some s) now1 st pageId u1 with
            activeConnections := mapRemove (mapSet (onDisconnect false (Except.ok ()) (some s)
              now1 st pageId u1).activeConnections pageId [u2]) pageId } := by
        rw [h1]
        simp [onDisconnect, lookup_mapSet_self, hfilter2]
      refine ⟨⟨?_, ?_⟩, ?_, ?_⟩
      · rw [h2]
      · rw [h2]
      · intro _
        rw [h1]
        simp
        try omega
      · rw [h1]
        simp
        try omega

/-- C5 witness: the suppression theorem applied at a concrete state — an
empty fingerprint map, one active session, direct-save mode. The first
disconnect persists exactly one snapshot; a second disconnect with the
byte-identical state persists nothing further. -/
theorem c5_change_suppression_witness :
    (onDisconnect false (Except.ok ()) (some [1]) 5
        ⟨[("p1", ["u1"])], [], [], ⟨[], [], []⟩⟩ "p1" "u1").queuedJobs.length +
      (onDisconnect false (Except.ok ()) (some [1]) 5
        ⟨[("p1", ["u1"])], [], [], ⟨[], [], []⟩⟩ "p1" "u1").db.yjsSnapshots.length = 1 ∧
    (onDisconnect false (Except.ok ()) (some [1]) 6
        { onDisconnect false (Except.ok ()) (some [1]) 5
            ⟨[("p1", ["u1"])], [], [], ⟨[], [], []⟩⟩ "p1" "u1" with
          activeConnections := mapSet (onDisconnect false (Except.ok ()) (some [1]) 5
            ⟨[("p1", ["u1"])], [], [], ⟨[], [], []⟩⟩ "p1" "u1").activeConnections
            "p1" ["u2"] } "p1" "u2").db =
      (onDisconnect false (Except.ok ()) (some [1]) 5
        ⟨[("p1", ["u1"])], [], [], ⟨[], [], []⟩⟩ "p1" "u1").db := by
  have h := c5_change_suppression false ⟨[("p1", ["u1"])], [], [], ⟨[], [], []⟩⟩
    "p1" "u1" "u2" [1] 5 6 (by decide)
  exact ⟨by simpa using h.2.1 (by decide), h.1.2⟩

/-- C10: fingerprint atomicity on persistence failure. In the
disconnect-triggered path with a changed state, a throwing enqueue/save is
caught: the handler returns normally having removed only the page's
connection set — the fingerprint map, the queue and the durable store are
all left unchanged — and a subsequent trigger carrying the same serialized
state is not suppressed: with persistence now succeeding it persists exactly
one snapshot/job. -/
theorem c10_fingerprint_unchanged_on_failure (useQueue : Bool) (st : ServerState)
    (pageId u1 u2 : String) (s : List Nat) (now1 now2 : Nat)
    (hconn : List.lookup pageId st.activeConnections = some [u1])
    (hdiff : (some (calculateStateHash s) == List.lookup pageId st.lastSnapshotHash) =
      false) :
    onDisconnect useQueue (Except.error ()) (some s) now1 st pageId u1 =
      { st with activeConnections := mapRemove st.activeConnections pageId } ∧
    ((onDisconnect useQueue (Except.ok ()) (some s) now2
        { st with activeConnections :=
            mapSet (mapRemove st.activeConnections pageId) pageId [u2] } pageId u2).queuedJobs.length +
      (onDisconnect useQueue (Except.ok ()) (some s) now2
        { st with activeConnections :=
            mapSet (mapRemove st.activeConnections pageId) pageId [u2] } pageId u2).db.yjsSnapshots.length =
      st.queuedJobs.length + st.db.yjsSnapshots.length + 1) := by
  have hfilter1 : List.filter (fun x => !(x == u1)) [u1] = [] := by simp
  have hfilter2 : List.filter (fun x => !(x == u2)) [u2] = [] := by simp
  constructor
  · simp [onDisconnect, hconn, hfilter1, hdiff]
  · cases useQueue with
    | true =>
      have h2 : onDisconnect true (Except.ok ()) (some s) now2
          { st with activeConnections :=
              mapSet (mapRemove st.activeConnections pageId) pageId [u2] } pageId u2 =
          { st with
            activeConnections := mapRemove (mapSet (mapRemove st.activeConnections pageId)
              pageId [u2]) pageId
            queuedJobs := st.queuedJobs ++ [⟨pageId, yjsStateToBase64 s, u2, now2⟩]
            lastSnapshotHash := mapSet st.lastSnapshotHash pageId (calculateStateHash s) } := by
        simp [onDisconnect, lookup_mapSet_self, hfilter2, hdiff]
      rw [h2]
      simp
      omega
    | false =>
      have h2 : onDisconnect false (Except.ok ()) (some s) now2
          { st with activeConnections :=
              mapSet (mapRemove st.activeConnections pageId) pageId [u2] } pageId u2 =
          { st with
            activeConnections := mapRemove (mapSet (mapRemove st.activeConnections pageId)
              pageId [u2]) pageId
            db := { st.db with yjsSnapshots := st.db.yjsSnapshots ++
                [saveSnapshotDirect pageId (yjsStateToBase64 s) u2 now2 now2] }
            lastSnapshotHash := mapSet st.lastSnapshotHash pageId (calculateStateHash s) } := by
        simp [onDisconnect, lookup_mapSet_self, hfilter2, hdiff]
      rw [h2]
      simp
      omega

/-- C10 witness: the atomicity theorem applied at a concrete state with an
empty fingerprint map: the failed attempt changes nothing but the connection
set, and the retry persists exactly one snapshot. -/
theorem c10_fingerprint_unchanged_on_failure_witness :
    onDisconnect false (Except.error ()) (some [1]) 5
        ⟨[("p1", ["u1"])], [], [], ⟨[], [], []⟩⟩ "p1" "u1" =
      { (⟨[("p1", ["u1"])], [], [], ⟨[], [], []⟩⟩ : ServerState) with
        activeConnections := mapRemove [("p1", ["u1"])] "p1" } ∧
    ((onDisconnect false (Except.ok ()) (some [1]) 6
        { (⟨[("p1", ["u1"])], [], [], ⟨[], [], []⟩⟩ : ServerState) with
          activeConnections := mapSet (mapRemove [("p1", ["u1"])] "p1") "p1" ["u2"] }
        "p1" "u2").queuedJobs.length +
      (onDisconnect false (Except.ok ()) (some [1]) 6
        { (⟨[("p1", ["u1"])], [], [], ⟨[], [], []⟩⟩ : ServerState) with
          activeConnections := mapSet (mapRemove [("p1", ["u1"])] "p1") "p1" ["u2"] }
        "p1" "u2").db.yjsSnapshots.length = 1) := by
  have h := c10_fingerprint_unchanged_on_failure false
    ⟨[("p1", ["u1"])], [], [], ⟨[], [], []⟩⟩ "p1" "u1" "u2" [1] 5 6 (by decide) (by decide)
  exact ⟨h.1, by simpa using h.2⟩
